import Mathlib

/-!
Verification development for the documentation site's content-indexing and
fuzzy-search pipeline.

The embedding covers:
* the index-builder script (`extractSections`, `markdownToText`,
  `extractQuestions`, `buildIndex`), which parses markdown into an mdast tree
  and produces one JSON record per content file;
* the content library (`getAllDocsMeta`, `extractHeadings`, `getAllDocSlugs`);
* the search client (`expandEntries` and the `SearchBar` debounce/fetch logic).

Markdown parsing itself is done by the `remark` library in the source; the
embedding therefore works directly on the parsed mdast tree (`Node` below).
Inline wrapper nodes (emphasis, links, ...) are transparent to both
`mdast-util-to-string` and `visit(node, 'text')`, so inline content is
modelled flat: plain text nodes and inline-code nodes (whose value is seen by
`toString` but not by a `visit` for `'text'` nodes).

JavaScript string primitives (`trim`, `endsWith`, whitespace regexes,
`toLowerCase`) are modelled by executable character-list functions below,
restricted to ASCII whitespace; all content-relevant behaviour coincides.
-/

/-! ### JavaScript string primitives -/

/-- ASCII whitespace, the fragment of the JS `\s` class relevant here. -/
def isJsWs (c : Char) : Bool :=
  c = ' ' ∨ c = '\t' ∨ c = '\n' ∨ c = '\r' ∨ c = '\x0b' ∨ c = '\x0c'

/-- Model of `String.prototype.trim`. -/
def jsTrim (s : String) : String :=
  String.mk (((s.data.dropWhile isJsWs).reverse.dropWhile isJsWs).reverse)

/-- Model of `String.prototype.endsWith`. -/
def strEndsWith (s suffix : String) : Bool :=
  List.isPrefixOf suffix.data.reverse s.data.reverse

/-- Splitting into maximal runs of non-whitespace characters (the words
between `\s+` matches); the accumulator holds the current word reversed. -/
def wsWordsAux : List Char → List Char → List String
  | [], w => if w = [] then [] else [String.mk w.reverse]
  | c :: cs, w =>
      if isJsWs c then
        if w = [] then wsWordsAux cs []
        else String.mk w.reverse :: wsWordsAux cs []
      else wsWordsAux cs (c :: w)

/-- Model of `.replace(/\s+/g, ' ').trim()`: every maximal run of whitespace
collapses to a single space and the ends are trimmed, i.e. the
whitespace-separated words joined by single spaces. -/
def collapseWs (s : String) : String :=
  String.intercalate " " (wsWordsAux s.data [])

/-! ### The mdast tree -/

/-- Inline (phrasing) content of a heading or paragraph: a text node or an
inline-code node. -/
inductive Inline where
  | text (value : String)
  | code (value : String)
deriving DecidableEq

/-- One mdast block node.  The builder and renderer only inspect `heading` and
`paragraph` nodes; every other block that can hold nested blocks (blockquote,
list, listItem, ...) is modelled by `container`, and childless blocks
(thematicBreak, code fences, html, ...) by `leaf`. -/
inductive Node where
  | heading (depth : Nat) (children : List Inline)
  | paragraph (children : List Inline)
  | container (children : List Node)
  | leaf

/-- Model of `toString` from `mdast-util-to-string` on inline content: the
concatenation of the `value` fields of all descendant literal nodes (text and
inline code alike). -/
def inlinesToString : List Inline → String
  | [] => ""
  | .text v :: is => v ++ inlinesToString is
  | .code v :: is => v ++ inlinesToString is

/-- Model of collecting `visit(node, 'text')` values inside a heading: the
concatenation of text-node values only (inline code is skipped). -/
def inlineTextValues : List Inline → String
  | [] => ""
  | .text v :: is => v ++ inlineTextValues is
  | .code _ :: is => inlineTextValues is

/-! ### GithubSlugger

Model of the `github-slugger` library used by both the index builder and the
renderer's heading extractor.  `slugifyBase` models the library's stateless
`slug` function on ASCII input: lowercase, drop characters outside
letters/digits/hyphen/underscore, and turn spaces into hyphens.  The stateful
de-duplication keeps a map from already-issued slugs to collision counters and
appends `-n` on collision, exactly as the library's `while` loop does (the
loop is given fuel one larger than the map size, which bounds the number of
successful lookups it can make). -/

/-- Lowercase and keep only slug-safe characters, mapping spaces to hyphens. -/
def slugifyChar (c : Char) : Option Char :=
  if c = ' ' then some '-'
  else if c.isAlpha ∨ c.isDigit ∨ c = '-' ∨ c = '_' then some c
  else none

/-- Stateless part of `github-slugger`: `value.toLowerCase()` then the
character filter. -/
def slugifyBase (value : String) : String :=
  String.mk ((value.data.map Char.toLower).filterMap slugifyChar)

/-- Lookup in the slugger's `occurrences` map. -/
def occLookup : List (String × Nat) → String → Option Nat
  | [], _ => none
  | (k, v) :: rest, key => if k = key then some v else occLookup rest key

/-- Insert or overwrite a binding in the slugger's `occurrences` map. -/
def occInsert : List (String × Nat) → String → Nat → List (String × Nat)
  | [], key, v => [(key, v)]
  | (k, w) :: rest, key, v =>
      if k = key then (key, v) :: rest else (k, w) :: occInsert rest key v

/-- The collision loop of `GithubSlugger.slug`: while the candidate slug was
already issued, bump the original slug's counter and retry with the suffixed
candidate.  On exit the final slug is recorded with counter 0. -/
def slugLoop (original : String) : Nat → List (String × Nat) → String →
    String × List (String × Nat)
  | fuel, occ, result =>
    match occLookup occ result with
    | none => (result, occInsert occ result 0)
    | some _ =>
      match fuel with
      | 0 => (result, occ)
      | fuel' + 1 =>
        let n := (occLookup occ original).getD 0 + 1
        slugLoop original fuel' (occInsert occ original n)
          (original ++ "-" ++ toString n)

/-- State of one `new GithubSlugger()` instance. -/
structure Slugger where
  occurrences : List (String × Nat)
deriving DecidableEq

/-- A fresh slugger. -/
def Slugger.new : Slugger := ⟨[]⟩

/-- `slugger.slug(value)`: returns the unique slug and the updated state. -/
def Slugger.slug (sl : Slugger) (value : String) : String × Slugger :=
  let base := slugifyBase value
  let (r, occ) := slugLoop base (sl.occurrences.length + 1) sl.occurrences base
  (r, ⟨occ⟩)

/-! ### extractSections (index builder) -/

/-- One entry of a document record's `sections` array. -/
structure Section where
  id : String
  title : String
  depth : Nat
  content : String
deriving DecidableEq

/-- The lookahead loop of `extractSections`: collect the trimmed text of
immediately following sibling paragraph nodes, stopping at a heading of depth
`≤ d`, once only `k` more paragraphs may be pushed and one is (the source
starts with room for three and breaks as soon as three are collected), or at
the end of the node list.  Empty-after-trim paragraphs are skipped without
counting. -/
def sectionParas (d : Nat) : Nat → List Node → List String
  | _, [] => []
  | k, .heading depth _ :: rest =>
      if depth ≤ d then [] else sectionParas d k rest
  | k, .paragraph ins :: rest =>
      let text := jsTrim (inlinesToString ins)
      if text = "" then sectionParas d k rest
      else if k ≤ 1 then [text]
      else text :: sectionParas d (k - 1) rest
  | k, .container _ :: rest => sectionParas d k rest
  | k, .leaf :: rest => sectionParas d k rest

/-- Main loop of `extractSections` over the top-level children of the tree,
threading the slugger state: every heading of depth ≤ 4 with non-empty
trimmed `toString` text opens a section. -/
def extractSectionsAux : List Node → Slugger → List Section
  | [], _ => []
  | .heading depth ins :: rest, sl =>
      if depth ≤ 4 then
        let title := jsTrim (inlinesToString ins)
        if title = "" then extractSectionsAux rest sl
        else
          let (id, sl') := sl.slug title
          { id := id, title := title, depth := depth,
            content := String.intercalate " " (sectionParas depth 3 rest) } ::
            extractSectionsAux rest sl'
      else extractSectionsAux rest sl
  | _ :: rest, sl => extractSectionsAux rest sl

/-- `extractSections` of the index builder, taking the parsed tree's
top-level children (the `remark` parse of the markdown source). -/
def extractSections (children : List Node) : List Section :=
  extractSectionsAux children Slugger.new

/-! ### markdownToText and extractQuestions (index builder) -/

mutual
/-- One step of the `visit(tree, 'paragraph', ...)` traversal of
`markdownToText`: push the paragraph's collapsed text when non-empty. -/
def mdtVisitNode : Node → List String → List String
  | .paragraph ins, acc =>
      let paragraph := collapseWs (inlinesToString ins)
      if paragraph = "" then acc else acc ++ [paragraph]
  | .container cs, acc => mdtVisit cs acc
  | .heading _ _, acc => acc
  | .leaf, acc => acc
/-- Preorder walk of `visit(tree, 'paragraph', ...)` over a node list. -/
def mdtVisit : List Node → List String → List String
  | [], acc => acc
  | n :: rest, acc => mdtVisit rest (mdtVisitNode n acc)
end

/-- `markdownToText` of the index builder: newline-join of the visited
paragraph texts. -/
def markdownToText (children : List Node) : String :=
  String.intercalate "\n" (mdtVisit children [])

mutual
/-- One step of the `visit(tree, 'paragraph', ...)` traversal of
`extractQuestions`: push the trimmed `toString` text when it ends in `?`. -/
def questionsVisitNode : Node → List String → List String
  | .paragraph ins, acc =>
      let text := jsTrim (inlinesToString ins)
      if strEndsWith text "?" then acc ++ [text] else acc
  | .container cs, acc => questionsVisit cs acc
  | .heading _ _, acc => acc
  | .leaf, acc => acc
/-- Preorder walk of the question-collecting traversal over a node list. -/
def questionsVisit : List Node → List String → List String
  | [], acc => acc
  | n :: rest, acc => questionsVisit rest (questionsVisitNode n acc)
end

/-- `extractQuestions` of the index builder. -/
def extractQuestions (children : List Node) : List String :=
  questionsVisit children []

/-! ### extractHeadings (content library / renderer side) -/

/-- One table-of-contents heading produced by the content library. -/
structure Heading where
  id : String
  text : String
  depth : Nat
deriving DecidableEq

mutual
/-- One step of the `visit(tree, 'heading', ...)` traversal of
`extractHeadings`: a heading of depth 2 or 3 whose concatenated text-node
content is non-empty after trimming gets a slug from the shared slugger. -/
def ehVisitNode : Node → Slugger → List Heading × Slugger
  | .heading depth ins, sl =>
      if 2 ≤ depth ∧ depth ≤ 3 then
        let text := inlineTextValues ins
        if jsTrim text = "" then ([], sl)
        else
          let (id, sl') := sl.slug text
          ([{ id := id, text := text, depth := depth }], sl')
      else ([], sl)
  | .container cs, sl => extractHeadingsAux cs sl
  | .paragraph _, sl => ([], sl)
  | .leaf, sl => ([], sl)
/-- Preorder walk of `visit(tree, 'heading', ...)` over a node list,
threading the slugger state. -/
def extractHeadingsAux : List Node → Slugger → List Heading × Slugger
  | [], sl => ([], sl)
  | n :: rest, sl =>
      let (hs, sl') := ehVisitNode n sl
      let (hs', sl'') := extractHeadingsAux rest sl'
      (hs ++ hs', sl'')
end

/-- `extractHeadings` of the content library. -/
def extractHeadings (children : List Node) : List Heading :=
  (extractHeadingsAux children Slugger.new).1

/-! ### localeCompare and the sort comparator

Both sort sites (`docs.sort` in the index builder and `metas.sort` in
`getAllDocsMeta`) use the comparator
`(a, b) => a.order - b.order || a.title.localeCompare(b.title)`.

`localeCompare` with no arguments uses the default (ICU root) collation.  For
ASCII strings that collation compares primary weights first (letters compared
case-insensitively, in alphabet order) and, when all primary weights agree,
falls back to case weights, where lowercase precedes uppercase.  `lexCmp`
is the lexicographic comparison of the corresponding key lists, returning a
negative/zero/positive integer like the JS function. -/

/-- Lexicographic three-way comparison of lists over a linear order,
returning -1, 0 or 1. -/
def lexCmp {α : Type} [LinearOrder α] : List α → List α → Int
  | [], [] => 0
  | [], _ :: _ => -1
  | _ :: _, [] => 1
  | x :: xs, y :: ys =>
      if x < y then -1 else if y < x then 1 else lexCmp xs ys

/-- Tertiary (case) weight of a character under the root collation:
lowercase before uppercase. -/
def caseKey (c : Char) : Nat := if c.isUpper then 1 else 0

/-- Model of `a.localeCompare(b)` under the default collation, restricted to
ASCII: compare the lowercased character sequences first, then the case
weights. -/
def localeCompare (a b : String) : Int :=
  let p := lexCmp (a.data.map Char.toLower) (b.data.map Char.toLower)
  if p ≠ 0 then p else lexCmp (a.data.map caseKey) (b.data.map caseKey)

/-- One record of `getAllDocsMeta` (the typed `DocMeta` of the content
library); `summary` and `tags` come from dynamically-typed front matter and
are carried as parsed values (see `JVal` below for the builder side, here the
validated fields suffice). -/
structure DocMeta where
  title : String
  order : Int
  summary : String
  tags : List String
  slug : String
deriving DecidableEq

/-- The shared sort comparator
`(a, b) => a.order - b.order || a.title.localeCompare(b.title)`:
the order difference when non-zero (JS `||` takes the first operand when it
is a non-zero number), otherwise the locale comparison of the titles. -/
def docCmp (a b : DocMeta) : Int :=
  let d := a.order - b.order
  if d ≠ 0 then d else localeCompare a.title b.title

/-- The non-strict order induced by the comparator. -/
def docLe (a b : DocMeta) : Prop := docCmp a b ≤ 0

instance : DecidableRel docLe := fun a b =>
  inferInstanceAs (Decidable (docCmp a b ≤ 0))

/-- `Array.prototype.sort` with a consistent comparator produces the stable
sort by the comparator's non-strict order; insertion sort is stable, so it is
a faithful model. -/
def sortMetas (l : List DocMeta) : List DocMeta :=
  List.insertionSort docLe l

/-! ### Front matter and the index builder's I/O

Front-matter values are dynamically typed in the source (`gray-matter` yields
whatever the YAML contains), so they are modelled by a small dynamic value
type.  The builder's I/O surface (directory listing, file reads, front-matter
parsing — `gray-matter` throws on malformed YAML — and the `remark` parse of
the body) is abstracted as an environment of fallible operations; the `remark`
parse is modelled as part of `parseMatter`, returning the body's mdast
children. -/

/-- A dynamically-typed front-matter value. -/
inductive JVal where
  | str (s : String)
  | num (n : Int)
  | bool (b : Bool)
  | arr (elems : List String)
  | null
deriving DecidableEq

/-- JS truthiness of a front-matter value (arrays are truthy objects). -/
def JVal.truthy : JVal → Bool
  | .str s => s ≠ ""
  | .num n => n ≠ 0
  | .bool b => b
  | .arr _ => true
  | .null => false

/-- Nullish coalescing `v ?? dflt` on an optional field: `undefined` (absent)
and `null` fall through to the default, everything else is kept. -/
def nullishGetD : Option JVal → JVal → JVal
  | none, dflt => dflt
  | some .null, dflt => dflt
  | some v, _ => v

/-- The recognized front-matter fields of a content file. -/
structure FrontMatter where
  title : Option JVal
  order : Option JVal
  summary : Option JVal
  tags : Option JVal
deriving DecidableEq

/-- The I/O environment of the index builder and the content library: the
content-directory listing, file reads, and front-matter/markdown parsing of a
raw file, each of which can fail. -/
structure FS where
  dirEntries : Except String (List String)
  readFile : String → Except String String
  parseMatter : String → Except String (FrontMatter × List Node)

/-- `SUPPORTED_EXT` of the index builder script. -/
def SUPPORTED_EXT : List String := [".md", ".mdx"]

/-- `SUPPORTED_EXTENSIONS` of the content library. -/
def SUPPORTED_EXTENSIONS : List String := [".md", ".mdx"]

/-- The builder's file filter:
`entries.filter((file) => SUPPORTED_EXT.some((ext) => file.endsWith(ext)))`. -/
def mdFilter (entries : List String) : List String :=
  entries.filter (fun file => SUPPORTED_EXT.any (fun ext => strEndsWith file ext))

/-- The builder's slug: `file.replace(/\.mdx?$/, '')`. -/
def slugOf (file : String) : String :=
  if strEndsWith file ".mdx" then String.mk (file.data.take (file.data.length - 4))
  else if strEndsWith file ".md" then String.mk (file.data.take (file.data.length - 3))
  else file

/-- One document record produced by the index builder (`docs.push({...})`).
`title` and `summary` keep their dynamic type: the source copies the front
matter value through `??` without a type check. -/
structure RawDoc where
  slug : String
  title : JVal
  summary : JVal
  tags : List String
  order : Int
  body : String
  questions : List String
  sections : List Section
deriving DecidableEq

/-- The record built for one file in the builder's loop. -/
def mkRawDoc (file : String) (data : FrontMatter) (tree : List Node) : RawDoc :=
  let slug := slugOf file
  { slug := slug
    title := nullishGetD data.title (.str slug)
    summary := nullishGetD data.summary (.str "")
    tags := match data.tags with | some (.arr xs) => xs | _ => []
    order := match data.order with | some (.num n) => n | _ => 999
    body := markdownToText tree
    questions := extractQuestions tree
    sections := extractSections tree }

/-- Read and parse one content file and build its record; a failed read or
parse is the rejected `await` the builder's `catch` observes. -/
def fileStep (fs : FS) (file : String) : Except String RawDoc :=
  match fs.readFile file with
  | .error e => .error e
  | .ok raw =>
    match fs.parseMatter raw with
    | .error e => .error e
    | .ok (data, tree) => .ok (mkRawDoc file data tree)

/-- The builder's `for (const file of files)` loop: any read or parse failure
aborts the whole loop (the `await` rejection propagates to the `catch`). -/
def buildDocsLoop (fs : FS) : List String → Except String (List RawDoc)
  | [] => .ok []
  | file :: rest =>
    match fileStep fs file with
    | .error e => .error e
    | .ok doc =>
      match buildDocsLoop fs rest with
      | .error e => .error e
      | .ok docs => .ok (doc :: docs)

/-- JS `ToString` on a front-matter value, as `localeCompare` applies it to
its argument: numbers print in decimal, booleans as `true`/`false`, arrays
join their elements with commas, `null` prints as `"null"`. -/
def jvalToString : JVal → String
  | .str s => s
  | .num n => toString n
  | .bool b => if b then "true" else "false"
  | .arr xs => String.intercalate "," xs
  | .null => "null"

/-- Whether a front-matter value is a string. -/
def JVal.isStr : JVal → Bool
  | .str _ => true
  | _ => false

/-- The builder-side comparator on raw documents, whose titles are
dynamically typed: the order difference short-circuits when non-zero;
otherwise `a.title.localeCompare(b.title)` runs, which throws a `TypeError`
when the receiver `a.title` is not a string (only strings have the method)
and coerces a non-string argument with `ToString`. -/
def rawCmpE (a b : RawDoc) : Except String Int :=
  let d := a.order - b.order
  if d ≠ 0 then .ok d
  else match a.title with
    | .str x => .ok (localeCompare x (jvalToString b.title))
    | _ => .error "TypeError: a.title.localeCompare is not a function"

/-- Insert one record into an already-sorted list, propagating a comparator
throw; the inserted record is always the comparator's receiver, as in
`(a, b) => a.order - b.order || a.title.localeCompare(b.title)`. -/
def orderedInsertE (a : RawDoc) : List RawDoc → Except String (List RawDoc)
  | [] => .ok [a]
  | b :: l =>
    match rawCmpE a b with
    | .error e => .error e
    | .ok c =>
      if c ≤ 0 then .ok (a :: b :: l)
      else
        match orderedInsertE a l with
        | .error e => .error e
        | .ok l' => .ok (b :: l')

/-- `docs.sort(...)` in the builder.  Which pairs `Array.prototype.sort`
hands to the comparator (and in which orientation) is implementation
defined, so the model uses a stable insertion sort: it agrees with every
implementation whenever no reachable comparator call can throw — in
particular whenever any two records sharing an `order` value both carry
string titles, since calls on distinct orders short-circuit before touching
the titles — and, like the real build, it is fallible outside that region
(a thrown comparator aborts the surrounding `try`). -/
def sortRawE : List RawDoc → Except String (List RawDoc)
  | [] => .ok []
  | a :: l =>
    match sortRawE l with
    | .error e => .error e
    | .ok l' => orderedInsertE a l'

/-- Externally visible build effects: the error log in the `catch` branch,
and the `mkdir`/`writeFile` pair that emits the artifact. -/
inductive BuildEff where
  | logError
  | mkdirOut
  | writeIndex (docs : List RawDoc)
deriving DecidableEq

/-- `buildIndex()`: the whole body runs inside one `try`; on success the
sorted document array is written (after creating the output directory) and
the process ends with exit code 0, on any failure — directory read, file
read, parse, or a comparator throw inside the sort — the cause is logged and
the process exits with code 1 without writing anything. -/
def buildIndexRun (fs : FS) : List BuildEff × Nat :=
  match fs.dirEntries with
  | .error _ => ([.logError], 1)
  | .ok entries =>
    match buildDocsLoop fs (mdFilter entries) with
    | .error _ => ([.logError], 1)
    | .ok docs =>
      match sortRawE docs with
      | .error _ => ([.logError], 1)
      | .ok sorted => ([.mkdirOut, .writeIndex sorted], 0)

/-! ### getAllDocsMeta and getAllDocSlugs (content library) -/

/-- `slugFromFilename` of the content library: strip the first supported
extension the filename ends with. -/
def slugFromFilename (filename : String) : String :=
  match SUPPORTED_EXTENSIONS.find? (fun extension => strEndsWith filename extension) with
  | some ext => String.mk (filename.data.take (filename.data.length - ext.data.length))
  | none => filename

/-- The front-matter validation and record construction for one file in
`getAllDocsMeta`: a falsy or non-string `title` throws, a non-number `order`
throws, `summary` defaults to the empty string and `tags` to the empty
array. -/
def metaStep (fs : FS) (filename : String) : Except String DocMeta :=
  match fs.readFile filename with
  | .error e => .error e
  | .ok raw =>
    match fs.parseMatter raw with
    | .error e => .error e
    | .ok (frontmatter, _) =>
      match frontmatter.title with
      | some (.str t) =>
          if t = "" then
            .error ("Missing required frontmatter title in " ++ filename)
          else
            match frontmatter.order with
            | some (.num n) =>
                .ok { title := t
                      order := n
                      summary := match nullishGetD frontmatter.summary (.str "") with
                        | .str s => s
                        | _ => ""
                      tags := match frontmatter.tags with
                        | some (.arr xs) => xs
                        | _ => []
                      slug := slugFromFilename filename }
            | _ =>
                .error ("Missing required numeric frontmatter order in " ++ filename)
      | _ => .error ("Missing required frontmatter title in " ++ filename)

/-- The accumulation loop of `getAllDocsMeta`. -/
def metaLoop (fs : FS) : List String → Except String (List DocMeta)
  | [] => .ok []
  | filename :: rest =>
    match metaStep fs filename with
    | .error e => .error e
    | .ok m =>
      match metaLoop fs rest with
      | .error e => .error e
      | .ok ms => .ok (m :: ms)

/-- `getAllDocsMeta`: list the content files, validate every front matter,
and return the records sorted with the shared comparator. -/
def getAllDocsMeta (fs : FS) : Except String (List DocMeta) :=
  match fs.dirEntries with
  | .error e => .error e
  | .ok entries =>
    match metaLoop fs (mdFilter entries) with
    | .error e => .error e
    | .ok ms => .ok (sortMetas ms)

/-- `getAllDocSlugs`: the slugs of `getAllDocsMeta` (errors propagate). -/
def getAllDocSlugs (fs : FS) : Except String (List String) :=
  match getAllDocsMeta fs with
  | .error e => .error e
  | .ok ms => .ok (ms.map (fun m => m.slug))

/-! ### Search client: expansion -/

/-- One document of the fetched `search_index.json` as the client types it
(`SearchIndexDoc`); `questions` and `sections` are optional fields. -/
structure SearchIndexDoc where
  slug : String
  title : String
  summary : String
  tags : List String
  body : String
  questions : Option (List String)
  sections : Option (List Section)
deriving DecidableEq

/-- The `type` discriminator of a search entry (`'doc' | 'section'`). -/
inductive EntryKind where
  | doc
  | sect
deriving DecidableEq

/-- One expanded `SearchEntry` of the client. -/
structure SearchEntry where
  kind : EntryKind
  slug : String
  title : String
  summary : String
  tags : List String
  body : String
  questions : Option (List String)
  sectionId : Option String
  sectionTitle : Option String
  sectionContent : Option String
deriving DecidableEq

/-- `expandEntries`: for each document push one doc-kind entry, then one
section-kind entry per section (`doc.sections?.forEach` does nothing when the
field is absent). -/
def expandEntries (docs : List SearchIndexDoc) : List SearchEntry :=
  docs.foldl
    (fun expanded doc =>
      (expanded ++
        [{ kind := .doc, slug := doc.slug, title := doc.title,
           summary := doc.summary, tags := doc.tags, body := doc.body,
           questions := doc.questions, sectionId := none,
           sectionTitle := none, sectionContent := none }]) ++
        (doc.sections.getD []).map
          (fun s =>
            { kind := .sect, slug := doc.slug, title := doc.title,
              summary := doc.summary, tags := doc.tags, body := doc.body,
              questions := doc.questions, sectionId := some s.id,
              sectionTitle := some s.title, sectionContent := some s.content }))
    []

/-! ### Search client: fetch, debounce and query state

The `SearchBar` component is modelled as a state machine.  Its events are the
resolution of the one `loadIndex()` fetch (success or failure), a keystroke
(`setQuery` via the input's `onChange`, whose `[query]` effect first runs the
previous effect's cleanup — `clearTimeout` — and then either clears the
results, when the index is missing or the trimmed query is empty, or
schedules the debounced search), and the firing of a pending debounce timer.
`calls` is the ledger of queries actually executed against the fuzzy index
(`fuseRef.current.search`). -/

/-- The client's state: whether the fuzzy index was built, the displayed
results, the pending debounce timer's query, the `loading` flag, the ledger
of executed searches, and whether a fetch failure was logged. -/
structure ClientState where
  fuse : Bool
  results : List SearchEntry
  pending : Option String
  loading : Bool
  calls : List String
  fetchErrorLogged : Bool
deriving DecidableEq

/-- The state before the component mounts: no index, nothing displayed. -/
def initClient : ClientState :=
  { fuse := false, results := [], pending := none, loading := false,
    calls := [], fetchErrorLogged := false }

/-- Events of the search client.  The one `loadIndex()` fetch has two
distinct failure modes: a non-success HTTP response takes the silent
`if (!res.ok) return;` path, which logs nothing, while a rejected promise
(network error, bad JSON, failed import) reaches the
`loadIndex().catch(...)` handler, which logs the cause. -/
inductive ClientEv where
  | fetchOk
  | fetchHttpError
  | fetchThrow
  | key (q : String)
  | fire
deriving DecidableEq

/-- One step of the client.  `search` is the fuzzy index's query function;
results of a fired search are capped at 30 (`{ limit: 30 }`). -/
def clientStep (search : String → List SearchEntry) (s : ClientState) :
    ClientEv → ClientState
  | .fetchOk => { s with fuse := true }
  | .fetchHttpError => s
  | .fetchThrow => { s with fetchErrorLogged := true }
  | .key q =>
      if s.fuse = false ∨ jsTrim q = "" then
        { s with pending := none, results := [] }
      else
        { s with pending := some q, loading := true }
  | .fire =>
      match s.pending with
      | none => s
      | some q =>
          { s with pending := none, loading := false,
                   results := (search q).take 30, calls := s.calls ++ [q] }

/-- Run the client over a sequence of events. -/
def runClient (search : String → List SearchEntry) (s : ClientState)
    (evs : List ClientEv) : ClientState :=
  evs.foldl (clientStep search) s

/-! ### Spec-side definitions and claim predicates -/

/-- Follows the spec's words for claim C3: the body as the newline-join of
the collapsed, non-empty texts of only the top-level paragraph nodes. -/
def specTopLevelBody (children : List Node) : String :=
  String.intercalate "\n"
    ((children.filterMap
        (fun n => match n with
          | .paragraph ins => some (collapseWs (inlinesToString ins))
          | _ => none)).filter (fun p => p ≠ ""))

mutual
/-- The collapsed texts of all paragraph nodes below one node, in preorder. -/
def paraTextsNode : Node → List String
  | .paragraph ins => [collapseWs (inlinesToString ins)]
  | .container cs => paraTexts cs
  | .heading _ _ => []
  | .leaf => []
/-- The collapsed texts of all paragraph nodes in a node list, in preorder
(the paragraphs `visit` reaches, at any nesting depth). -/
def paraTexts : List Node → List String
  | [] => []
  | n :: rest => paraTextsNode n ++ paraTexts rest
end

/-- Whether a node is a heading that closes a section of depth `d`. -/
def isStopHeading (d : Nat) : Node → Bool
  | .heading depth _ => depth ≤ d
  | _ => false

/-- The trimmed, non-empty texts of the top-level paragraph nodes of a list. -/
def topParaTexts (l : List Node) : List String :=
  l.filterMap
    (fun n => match n with
      | .paragraph ins =>
          let t := jsTrim (inlinesToString ins)
          if t = "" then none else some t
      | _ => none)

/-- Inline content made only of plain text nodes. -/
def inlinesAllText : List Inline → Bool
  | [] => true
  | .text _ :: is => inlinesAllText is
  | .code _ :: _ => false

mutual
/-- No heading occurs in this node or below it. -/
def nodeHeadingFree : Node → Bool
  | .heading _ _ => false
  | .paragraph _ => true
  | .container cs => nodesHeadingFree cs
  | .leaf => true
/-- No heading occurs anywhere in the list. -/
def nodesHeadingFree : List Node → Bool
  | [] => true
  | n :: rest => nodeHeadingFree n && nodesHeadingFree rest
end

/-- The hypothesis of the amended claim C1 on one top-level node: a heading
must have depth 2-3, purely textual inline content and already-trimmed text;
any other node must not hide nested headings. -/
def c1Node : Node → Bool
  | .heading depth ins =>
      decide (2 ≤ depth) && decide (depth ≤ 3) && inlinesAllText ins &&
        decide (jsTrim (inlineTextValues ins) = inlineTextValues ins)
  | .paragraph _ => true
  | .container cs => nodesHeadingFree cs
  | .leaf => true

/-- The `getAllDocsMeta` validation failure on `title`:
`!frontmatter.title || typeof frontmatter.title !== 'string'`. -/
def titleInvalid : Option JVal → Bool
  | some (.str t) => t = ""
  | _ => true

/-- The `getAllDocsMeta` validation failure on `order`:
`typeof frontmatter.order !== 'number'`. -/
def orderInvalid : Option JVal → Bool
  | some (.num _) => false
  | _ => true

/-- A search-client state with a successfully built index and clean slate,
used by the concrete debounce scenarios. -/
def readyClient : ClientState :=
  { initClient with fuse := true }

/-! ### Order lemmas for the sort comparator -/

/-- The empty list is a lower bound for the lexicographic comparison. -/
theorem lexCmp_nil_left {α : Type} [LinearOrder α] (ys : List α) :
    lexCmp ([] : List α) ys ≤ 0 := by
  cases ys <;> simp [lexCmp]

/-- Swapping the arguments negates the lexicographic comparison. -/
theorem lexCmp_anti {α : Type} [LinearOrder α] :
    ∀ xs ys : List α, lexCmp ys xs = - lexCmp xs ys
  | [], [] => by simp [lexCmp]
  | [], _ :: _ => by simp [lexCmp]
  | _ :: _, [] => by simp [lexCmp]
  | x :: xs, y :: ys => by
    by_cases hxy : x < y
    · simp [lexCmp, hxy, asymm hxy]
    · by_cases hyx : y < x
      · simp [lexCmp, hxy, hyx]
      · simp [lexCmp, hxy, hyx, lexCmp_anti xs ys]

/-- The lexicographic comparison vanishes exactly on equal lists. -/
theorem lexCmp_eq_zero_iff {α : Type} [LinearOrder α] :
    ∀ xs ys : List α, lexCmp xs ys = 0 ↔ xs = ys
  | [], [] => by simp [lexCmp]
  | [], _ :: _ => by simp [lexCmp]
  | _ :: _, [] => by simp [lexCmp]
  | x :: xs, y :: ys => by
    by_cases hxy : x < y
    · simp [lexCmp, hxy, ne_of_lt hxy]
    · by_cases hyx : y < x
      · simp [lexCmp, hxy, hyx, (ne_of_lt hyx).symm]
      · have heq : x = y := le_antisymm (not_lt.mp hyx) (not_lt.mp hxy)
        subst heq
        simp [lexCmp, lexCmp_eq_zero_iff xs ys]

/-- Transitivity of the non-strict lexicographic comparison. -/
theorem lexCmp_le_trans {α : Type} [LinearOrder α] :
    ∀ xs ys zs : List α,
      lexCmp xs ys ≤ 0 → lexCmp ys zs ≤ 0 → lexCmp xs zs ≤ 0
  | [], _, zs => fun _ _ => lexCmp_nil_left zs
  | _ :: _, [], _ => by intro h _; simp [lexCmp] at h
  | _ :: _, _ :: _, [] => by intro _ h; simp [lexCmp] at h
  | x :: xs, y :: ys, z :: zs => by
    intro h1 h2
    rcases lt_trichotomy x y with hxy | hxy | hxy
    · rcases lt_trichotomy y z with hyz | hyz | hyz
      · simp [lexCmp, lt_trans hxy hyz]
      · subst hyz; simp [lexCmp, hxy]
      · exfalso; simp [lexCmp, asymm hyz, hyz] at h2
    · subst hxy
      rcases lt_trichotomy x z with hxz | hxz | hxz
      · simp [lexCmp, hxz]
      · subst hxz
        simp only [lexCmp, lt_irrefl, if_false] at h1 h2 ⊢
        exact lexCmp_le_trans xs ys zs h1 h2
      · exfalso; simp [lexCmp, asymm hxz, hxz] at h2
    · exfalso; simp [lexCmp, asymm hxy, hxy] at h1

/-- Swapping the arguments negates `localeCompare`. -/
theorem localeCompare_anti (a b : String) :
    localeCompare b a = - localeCompare a b := by
  simp only [localeCompare]
  by_cases h : lexCmp (a.data.map Char.toLower) (b.data.map Char.toLower) = 0
  · have h' : lexCmp (b.data.map Char.toLower) (a.data.map Char.toLower) = 0 := by
      rw [lexCmp_anti, h]; simp
    simp [h, h', lexCmp_anti (a.data.map caseKey) (b.data.map caseKey)]
  · have h' : lexCmp (b.data.map Char.toLower) (a.data.map Char.toLower) ≠ 0 := by
      rw [lexCmp_anti]; simpa using h
    simp [h, h', lexCmp_anti (a.data.map Char.toLower) (b.data.map Char.toLower)]

/-- Transitivity of the non-strict `localeCompare` comparison. -/
theorem localeCompare_le_trans (a b c : String)
    (h1 : localeCompare a b ≤ 0) (h2 : localeCompare b c ≤ 0) :
    localeCompare a c ≤ 0 := by
  simp only [localeCompare] at h1 h2 ⊢
  by_cases hab : lexCmp (a.data.map Char.toLower) (b.data.map Char.toLower) = 0
  · have hAB : a.data.map Char.toLower = b.data.map Char.toLower :=
      (lexCmp_eq_zero_iff _ _).mp hab
    by_cases hbc : lexCmp (b.data.map Char.toLower) (c.data.map Char.toLower) = 0
    · have hBC : b.data.map Char.toLower = c.data.map Char.toLower :=
        (lexCmp_eq_zero_iff _ _).mp hbc
      have hac : lexCmp (a.data.map Char.toLower) (c.data.map Char.toLower) = 0 := by
        rw [hAB, hBC]; exact (lexCmp_eq_zero_iff _ _).mpr rfl
      simp only [hab, hbc, hac, ne_eq, not_true_eq_false, if_false] at h1 h2 ⊢
      exact lexCmp_le_trans _ _ _ h1 h2
    · have hac : lexCmp (a.data.map Char.toLower) (c.data.map Char.toLower) =
          lexCmp (b.data.map Char.toLower) (c.data.map Char.toLower) := by rw [hAB]
      simp only [hbc, ne_eq, not_false_eq_true, if_true] at h2
      simp [hac, hbc, h2]
  · by_cases hbc : lexCmp (b.data.map Char.toLower) (c.data.map Char.toLower) = 0
    · have hBC : b.data.map Char.toLower = c.data.map Char.toLower :=
        (lexCmp_eq_zero_iff _ _).mp hbc
      have hac : lexCmp (a.data.map Char.toLower) (c.data.map Char.toLower) =
          lexCmp (a.data.map Char.toLower) (b.data.map Char.toLower) := by rw [hBC]
      simp only [hab, ne_eq, not_false_eq_true, if_true] at h1
      simp [hac, hab, h1]
    · simp only [hab, hbc, ne_eq, not_false_eq_true, if_true] at h1 h2
      by_cases hac : lexCmp (a.data.map Char.toLower) (c.data.map Char.toLower) = 0
      · exfalso
        have hAC : a.data.map Char.toLower = c.data.map Char.toLower :=
          (lexCmp_eq_zero_iff _ _).mp hac
        have : lexCmp (b.data.map Char.toLower) (c.data.map Char.toLower) =
            - lexCmp (a.data.map Char.toLower) (b.data.map Char.toLower) := by
          rw [← hAC]; exact lexCmp_anti _ _
        omega
      · have := lexCmp_le_trans _ _ _ h1 h2
        simp [hac, this]

/-- Swapping the arguments negates the shared comparator. -/
theorem docCmp_anti (a b : DocMeta) : docCmp b a = - docCmp a b := by
  simp only [docCmp]
  by_cases h : a.order - b.order = 0
  · have h' : b.order - a.order = 0 := by omega
    simp [h, h', localeCompare_anti a.title b.title]
  · have h' : b.order - a.order ≠ 0 := by omega
    simp only [h, h', ne_eq, not_false_eq_true, if_true]
    omega

/-- The comparator is non-positive exactly when the order is smaller, or the
orders tie and the locale comparison of the titles is non-positive. -/
theorem docCmp_le_iff (a b : DocMeta) :
    docCmp a b ≤ 0 ↔
      a.order < b.order ∨
        (a.order = b.order ∧ localeCompare a.title b.title ≤ 0) := by
  simp only [docCmp]
  by_cases h : a.order - b.order = 0
  · have he : a.order = b.order := by omega
    simp [h, he]
  · constructor
    · intro hle
      simp only [h, ne_eq, not_false_eq_true, if_true] at hle
      left; omega
    · rintro (hlt | ⟨he, _⟩)
      · simp only [h, ne_eq, not_false_eq_true, if_true]; omega
      · exact absurd (by omega : a.order - b.order = 0) h

instance : IsTotal DocMeta docLe :=
  ⟨fun a b => by
    simp only [docLe]
    have := docCmp_anti a b
    omega⟩

instance : IsTrans DocMeta docLe :=
  ⟨fun a b c hab hbc => by
    simp only [docLe] at *
    rw [docCmp_le_iff] at *
    rcases hab with hab | ⟨hab, hab'⟩ <;> rcases hbc with hbc | ⟨hbc, hbc'⟩
    · exact Or.inl (lt_trans hab hbc)
    · exact Or.inl (hbc ▸ hab)
    · exact Or.inl (hab ▸ hbc)
    · exact Or.inr ⟨hab.trans hbc, localeCompare_le_trans _ _ _ hab' hbc'⟩⟩

/-! ### Claim C2 -/

/-- C2 (amended): the sorted document array (both sort sites share the
comparator `a.order - b.order || a.title.localeCompare(b.title)`) is a
permutation of the input that is sorted ascending by `order`, with ties
broken by the locale-aware `localeCompare` of the titles — not by
case-sensitive code-unit comparison. -/
theorem c2_sorted_by_order_then_locale (l : List DocMeta) :
    (sortMetas l).Perm l ∧
      (sortMetas l).Pairwise
        (fun a b =>
          a.order < b.order ∨
            (a.order = b.order ∧ localeCompare a.title b.title ≤ 0)) :=
  ⟨List.perm_insertionSort docLe l,
   (List.sorted_insertionSort docLe l).imp fun h => (docCmp_le_iff _ _).mp h⟩

/-- C2 (counterexample): with equal `order`, the titles "B" and "a" come out
as ["a", "B"], which is not sorted by case-sensitive lexical (code-unit)
comparison, since "a" > "B" in code-unit order. -/
theorem c2_counterexample :
    (sortMetas
        [{ title := "B", order := 1, summary := "", tags := [], slug := "b" },
         { title := "a", order := 1, summary := "", tags := [], slug := "a" }]).map
        (fun d => d.title) = ["a", "B"] ∧
      ¬ ("a" : String) ≤ "B" := by
  constructor
  · decide
  · rw [String.le_iff_toList_le]
    decide

/-! ### Claim C3 -/

mutual
/-- The visit step pushes exactly the non-empty collapsed paragraph texts
below one node. -/
theorem mdtVisitNode_eq :
    ∀ (n : Node) (acc : List String),
      mdtVisitNode n acc = acc ++ (paraTextsNode n).filter (fun p => p ≠ "")
  | .paragraph ins, acc => by
      by_cases h : collapseWs (inlinesToString ins) = "" <;>
        simp [mdtVisitNode, paraTextsNode, h]
  | .container cs, acc => by
      simp [mdtVisitNode, paraTextsNode, mdtVisit_eq cs acc]
  | .heading _ _, acc => by simp [mdtVisitNode, paraTextsNode]
  | .leaf, acc => by simp [mdtVisitNode, paraTextsNode]
/-- The traversal appends exactly the non-empty collapsed paragraph texts of
the list, in preorder. -/
theorem mdtVisit_eq :
    ∀ (l : List Node) (acc : List String),
      mdtVisit l acc = acc ++ (paraTexts l).filter (fun p => p ≠ "")
  | [], acc => by simp [mdtVisit, paraTexts]
  | n :: rest, acc => by
      simp only [mdtVisit]
      rw [mdtVisit_eq rest (mdtVisitNode n acc), mdtVisitNode_eq n acc]
      simp [paraTexts, List.filter_append]
end

/-- C3 (amended): the `body` field is the newline-join of the collapsed,
non-empty texts of all paragraph nodes in the tree in preorder — including
paragraphs nested inside blockquotes, lists and other containers, not only
the top-level ones. -/
theorem c3_body_joins_all_paragraphs (children : List Node) :
    markdownToText children =
      String.intercalate "\n" ((paraTexts children).filter (fun p => p ≠ "")) := by
  rw [markdownToText, mdtVisit_eq]
  simp

/-- C3 (counterexample): a paragraph nested inside a blockquote is included
in the body, so the body is not the concatenation of only the top-level
paragraph texts (which here is empty). -/
theorem c3_counterexample :
    markdownToText [Node.container [Node.paragraph [Inline.text "hi"]]] = "hi" ∧
      specTopLevelBody [Node.container [Node.paragraph [Inline.text "hi"]]] = "" ∧
      ("hi" : String) ≠ "" := by
  refine ⟨by decide, by decide, by decide⟩

/-! ### Claim C4 -/

/-- The lookahead loop collects at most `k` paragraphs (for positive `k`). -/
theorem sectionParas_length_le (d : Nat) :
    ∀ (k : Nat) (l : List Node), 1 ≤ k → (sectionParas d k l).length ≤ k
  | _, [], _ => by simp [sectionParas]
  | k, .heading depth _ :: rest, hk => by
      by_cases h : depth ≤ d
      · simp [sectionParas, h]
      · simpa [sectionParas, h] using sectionParas_length_le d k rest hk
  | k, .paragraph ins :: rest, hk => by
      by_cases ht : jsTrim (inlinesToString ins) = ""
      · simpa [sectionParas, ht] using sectionParas_length_le d k rest hk
      · by_cases hk1 : k ≤ 1
        · simp [sectionParas, ht, hk1]
          omega
        · have ih := sectionParas_length_le d (k - 1) rest (by omega)
          simp [sectionParas, ht, hk1]
          omega
  | k, .container _ :: rest, hk => by
      simpa [sectionParas] using sectionParas_length_le d k rest hk
  | k, .leaf :: rest, hk => by
      simpa [sectionParas] using sectionParas_length_le d k rest hk

/-- A heading contributes nothing to the top-level paragraph texts. -/
theorem topParaTexts_cons_heading (depth : Nat) (ins : List Inline)
    (l : List Node) :
    topParaTexts (Node.heading depth ins :: l) = topParaTexts l := by
  simp [topParaTexts, List.filterMap_cons]

/-- A container contributes nothing to the top-level paragraph texts. -/
theorem topParaTexts_cons_container (cs : List Node) (l : List Node) :
    topParaTexts (Node.container cs :: l) = topParaTexts l := by
  simp [topParaTexts, List.filterMap_cons]

/-- A childless block contributes nothing to the top-level paragraph texts. -/
theorem topParaTexts_cons_leaf (l : List Node) :
    topParaTexts (Node.leaf :: l) = topParaTexts l := by
  simp [topParaTexts, List.filterMap_cons]

/-- An empty-after-trim paragraph contributes nothing. -/
theorem topParaTexts_cons_para_empty (ins : List Inline) (l : List Node)
    (h : jsTrim (inlinesToString ins) = "") :
    topParaTexts (Node.paragraph ins :: l) = topParaTexts l := by
  simp [topParaTexts, List.filterMap_cons, h]

/-- A non-empty paragraph contributes its trimmed text. -/
theorem topParaTexts_cons_para (ins : List Inline) (l : List Node)
    (h : ¬ jsTrim (inlinesToString ins) = "") :
    topParaTexts (Node.paragraph ins :: l) =
      jsTrim (inlinesToString ins) :: topParaTexts l := by
  simp [topParaTexts, List.filterMap_cons, h]

/-- Every paragraph text the lookahead collects comes from a top-level
paragraph strictly before the first heading of depth ≤ `d`. -/
theorem sectionParas_mem (d : Nat) :
    ∀ (k : Nat) (l : List Node) (p : String), p ∈ sectionParas d k l →
      p ∈ topParaTexts (l.takeWhile (fun n => !(isStopHeading d n)))
  | _, [], p, hp => by simp [sectionParas] at hp
  | k, .heading depth ins :: rest, p, hp => by
      by_cases h : depth ≤ d
      · simp [sectionParas, h] at hp
      · simp only [sectionParas, h, if_false] at hp
        have ih := sectionParas_mem d k rest p hp
        have hkeep : (!(isStopHeading d (Node.heading depth ins))) = true := by
          simp [isStopHeading, h]
        rw [List.takeWhile_cons, hkeep, if_pos rfl, topParaTexts_cons_heading]
        exact ih
  | k, .paragraph ins :: rest, p, hp => by
      have hkeep : (!(isStopHeading d (Node.paragraph ins))) = true := by
        simp [isStopHeading]
      rw [List.takeWhile_cons, hkeep, if_pos rfl]
      simp only [sectionParas] at hp
      by_cases ht : jsTrim (inlinesToString ins) = ""
      · rw [if_pos ht] at hp
        rw [topParaTexts_cons_para_empty ins _ ht]
        exact sectionParas_mem d k rest p hp
      · rw [if_neg ht] at hp
        rw [topParaTexts_cons_para ins _ ht]
        by_cases hk1 : k ≤ 1
        · rw [if_pos hk1] at hp
          rw [List.mem_singleton.mp hp]
          exact List.mem_cons_self _ _
        · rw [if_neg hk1] at hp
          rcases List.mem_cons.mp hp with hp | hp
          · rw [hp]
            exact List.mem_cons_self _ _
          · exact List.mem_cons_of_mem _ (sectionParas_mem d (k - 1) rest p hp)
  | k, .container cs :: rest, p, hp => by
      simp only [sectionParas] at hp
      have ih := sectionParas_mem d k rest p hp
      have hkeep : (!(isStopHeading d (Node.container cs))) = true := by
        simp [isStopHeading]
      rw [List.takeWhile_cons, hkeep, if_pos rfl, topParaTexts_cons_container]
      exact ih
  | k, .leaf :: rest, p, hp => by
      simp only [sectionParas] at hp
      have ih := sectionParas_mem d k rest p hp
      have hkeep : (!(isStopHeading d Node.leaf)) = true := by
        simp [isStopHeading]
      rw [List.takeWhile_cons, hkeep, if_pos rfl, topParaTexts_cons_leaf]
      exact ih

/-- Every produced section arises from a heading in the list, with its
content built by the lookahead loop over the nodes after that heading. -/
theorem extractSectionsAux_mem :
    ∀ (l : List Node) (sl : Slugger) (s : Section), s ∈ extractSectionsAux l sl →
      ∃ pre ins rest, l = pre ++ Node.heading s.depth ins :: rest ∧
        s.title = jsTrim (inlinesToString ins) ∧
        s.content = String.intercalate " " (sectionParas s.depth 3 rest)
  | [], _, s, hs => by simp [extractSectionsAux] at hs
  | .heading depth ins :: rest, sl, s, hs => by
      by_cases h4 : depth ≤ 4
      · by_cases ht : jsTrim (inlinesToString ins) = ""
        · simp only [extractSectionsAux, h4, if_true, ht] at hs
          obtain ⟨pre, ins', rest', h1, h2, h3⟩ :=
            extractSectionsAux_mem rest sl s hs
          exact ⟨Node.heading depth ins :: pre, ins', rest', by rw [h1]; rfl,
            h2, h3⟩
        · rcases hsl : Slugger.slug sl (jsTrim (inlinesToString ins)) with ⟨id, sl'⟩
          simp only [extractSectionsAux, h4, if_true, ht, if_false, hsl,
            List.mem_cons] at hs
          rcases hs with hs | hs
          · subst hs
            exact ⟨[], ins, rest, rfl, rfl, rfl⟩
          · obtain ⟨pre, ins', rest', h1, h2, h3⟩ :=
              extractSectionsAux_mem rest sl' s hs
            exact ⟨Node.heading depth ins :: pre, ins', rest', by rw [h1]; rfl,
              h2, h3⟩
      · simp only [extractSectionsAux, h4, if_false] at hs
        obtain ⟨pre, ins', rest', h1, h2, h3⟩ :=
          extractSectionsAux_mem rest sl s hs
        exact ⟨Node.heading depth ins :: pre, ins', rest', by rw [h1]; rfl,
          h2, h3⟩
  | .paragraph q :: rest, sl, s, hs => by
      simp only [extractSectionsAux] at hs
      obtain ⟨pre, ins', rest', h1, h2, h3⟩ := extractSectionsAux_mem rest sl s hs
      exact ⟨Node.paragraph q :: pre, ins', rest', by rw [h1]; rfl, h2, h3⟩
  | .container cs :: rest, sl, s, hs => by
      simp only [extractSectionsAux] at hs
      obtain ⟨pre, ins', rest', h1, h2, h3⟩ := extractSectionsAux_mem rest sl s hs
      exact ⟨Node.container cs :: pre, ins', rest', by rw [h1]; rfl, h2, h3⟩
  | .leaf :: rest, sl, s, hs => by
      simp only [extractSectionsAux] at hs
      obtain ⟨pre, ins', rest', h1, h2, h3⟩ := extractSectionsAux_mem rest sl s hs
      exact ⟨Node.leaf :: pre, ins', rest', by rw [h1]; rfl, h2, h3⟩

/-- C4: every section's `content` is the space-join of the paragraph texts
collected after its heading — at most three of them, all taken from
top-level paragraphs strictly between the heading and the next heading of
depth ≤ the section's depth (or the end of the node list). -/
theorem c4_section_content_bounded (children : List Node) (s : Section)
    (hs : s ∈ extractSections children) :
    ∃ pre ins rest, children = pre ++ Node.heading s.depth ins :: rest ∧
      s.content = String.intercalate " " (sectionParas s.depth 3 rest) ∧
      (sectionParas s.depth 3 rest).length ≤ 3 ∧
      ∀ p ∈ sectionParas s.depth 3 rest,
        p ∈ topParaTexts (rest.takeWhile (fun n => !(isStopHeading s.depth n))) := by
  obtain ⟨pre, ins, rest, h1, _, h3⟩ :=
    extractSectionsAux_mem children Slugger.new s hs
  exact ⟨pre, ins, rest, h1, h3,
    sectionParas_length_le s.depth 3 rest (by omega),
    fun p hp => sectionParas_mem s.depth 3 rest p hp⟩

/-- C4 (witness): the theorem applied to a two-heading document with two
paragraphs in the first section. -/
theorem c4_witness :
    ((⟨"retry-policy", "Retry Policy", 2, "p one p two"⟩ : Section) ∈
      extractSections
        [Node.heading 2 [Inline.text "Retry Policy"],
         Node.paragraph [Inline.text "p one"],
         Node.paragraph [Inline.text "p two"],
         Node.heading 2 [Inline.text "Deeper"]]) ∧
    (∃ pre ins rest,
      [Node.heading 2 [Inline.text "Retry Policy"],
       Node.paragraph [Inline.text "p one"],
       Node.paragraph [Inline.text "p two"],
       Node.heading 2 [Inline.text "Deeper"]] =
        pre ++ Node.heading 2 ins :: rest ∧
      "p one p two" = String.intercalate " " (sectionParas 2 3 rest) ∧
      (sectionParas 2 3 rest).length ≤ 3 ∧
      ∀ p ∈ sectionParas 2 3 rest,
        p ∈ topParaTexts (rest.takeWhile (fun n => !(isStopHeading 2 n)))) :=
  ⟨by decide,
   c4_section_content_bounded _ ⟨"retry-policy", "Retry Policy", 2, "p one p two"⟩
     (by decide)⟩

/-! ### Claim C5 -/

/-- A left fold that only ever appends is the flat map of its pushes. -/
theorem foldl_append_flatMap {α β : Type} (g : α → List β) :
    ∀ (l : List α) (acc : List β),
      l.foldl (fun acc a => acc ++ g a) acc = acc ++ l.flatMap g
  | [], acc => by simp
  | a :: l, acc => by
      simp [foldl_append_flatMap g l, List.append_assoc]

/-- C5: `expandEntries` emits, per document in input order, one doc-kind
entry followed by one section-kind entry per section in original order,
copying the parent fields; its length is the sum over the documents of
`1 + sections.length`. -/
theorem c5_expansion_shape (docs : List SearchIndexDoc)
    (h : ∀ d ∈ docs, d.sections.isSome = true) :
    expandEntries docs =
      docs.flatMap (fun doc =>
        { kind := .doc, slug := doc.slug, title := doc.title,
          summary := doc.summary, tags := doc.tags, body := doc.body,
          questions := doc.questions, sectionId := none,
          sectionTitle := none, sectionContent := none } ::
          (doc.sections.getD []).map
            (fun s =>
              { kind := .sect, slug := doc.slug, title := doc.title,
                summary := doc.summary, tags := doc.tags, body := doc.body,
                questions := doc.questions, sectionId := some s.id,
                sectionTitle := some s.title,
                sectionContent := some s.content })) ∧
    (expandEntries docs).length =
      (docs.map (fun d => 1 + (d.sections.getD []).length)).sum := by
  have key : expandEntries docs =
      docs.flatMap (fun doc =>
        { kind := .doc, slug := doc.slug, title := doc.title,
          summary := doc.summary, tags := doc.tags, body := doc.body,
          questions := doc.questions, sectionId := none,
          sectionTitle := none, sectionContent := none } ::
          (doc.sections.getD []).map
            (fun s =>
              { kind := .sect, slug := doc.slug, title := doc.title,
                summary := doc.summary, tags := doc.tags, body := doc.body,
                questions := doc.questions, sectionId := some s.id,
                sectionTitle := some s.title,
                sectionContent := some s.content })) := by
    rw [expandEntries]
    rw [show (fun (expanded : List SearchEntry) (doc : SearchIndexDoc) =>
        (expanded ++
          [{ kind := .doc, slug := doc.slug, title := doc.title,
             summary := doc.summary, tags := doc.tags, body := doc.body,
             questions := doc.questions, sectionId := none,
             sectionTitle := none, sectionContent := none }]) ++
          (doc.sections.getD []).map
            (fun s =>
              { kind := .sect, slug := doc.slug, title := doc.title,
                summary := doc.summary, tags := doc.tags, body := doc.body,
                questions := doc.questions, sectionId := some s.id,
                sectionTitle := some s.title,
                sectionContent := some s.content })) =
      (fun (expanded : List SearchEntry) (doc : SearchIndexDoc) =>
        expanded ++
          ({ kind := .doc, slug := doc.slug, title := doc.title,
             summary := doc.summary, tags := doc.tags, body := doc.body,
             questions := doc.questions, sectionId := none,
             sectionTitle := none, sectionContent := none } ::
            (doc.sections.getD []).map
              (fun s =>
                { kind := .sect, slug := doc.slug, title := doc.title,
                  summary := doc.summary, tags := doc.tags, body := doc.body,
                  questions := doc.questions, sectionId := some s.id,
                  sectionTitle := some s.title,
                  sectionContent := some s.content }))) from by
      funext expanded doc
      simp]
    exact foldl_append_flatMap _ docs []
  refine ⟨key, ?_⟩
  rw [key]
  clear key h
  induction docs with
  | nil => simp
  | cons d rest ih =>
      simp only [List.flatMap_cons, List.map_cons, List.sum_cons,
        List.length_append, List.length_cons, List.length_map, ih]
      omega

/-- C5 (witness): the theorem applied to one document with two sections and
one with none. -/
theorem c5_witness :
    (∀ d ∈ [({ slug := "a", title := "A", summary := "", tags := [],
               body := "", questions := some [],
               sections := some [⟨"s1", "S1", 2, "c1"⟩, ⟨"s2", "S2", 3, "c2"⟩] } :
                 SearchIndexDoc),
             { slug := "b", title := "B", summary := "", tags := [],
               body := "", questions := some [], sections := some [] }],
        d.sections.isSome = true) ∧
    (expandEntries
        [{ slug := "a", title := "A", summary := "", tags := [],
           body := "", questions := some [],
           sections := some [⟨"s1", "S1", 2, "c1"⟩, ⟨"s2", "S2", 3, "c2"⟩] },
         { slug := "b", title := "B", summary := "", tags := [],
           body := "", questions := some [], sections := some [] }]).length =
      ([({ slug := "a", title := "A", summary := "", tags := [],
           body := "", questions := some [],
           sections := some [⟨"s1", "S1", 2, "c1"⟩, ⟨"s2", "S2", 3, "c2"⟩] } :
             SearchIndexDoc),
         { slug := "b", title := "B", summary := "", tags := [],
           body := "", questions := some [], sections := some [] }].map
          (fun d => 1 + (d.sections.getD []).length)).sum :=
  ⟨by decide,
   (c5_expansion_shape _ (by decide)).2⟩

/-! ### Claims C6, C7, C9 -/

/-- A keystroke never executes a search and never touches the index flag. -/
theorem clientStep_key_preserves (search : String → List SearchEntry)
    (s : ClientState) (q : String) :
    (clientStep search s (.key q)).calls = s.calls ∧
      (clientStep search s (.key q)).fuse = s.fuse := by
  by_cases h : s.fuse = false ∨ jsTrim q = "" <;> simp [clientStep, h]

/-- A burst of keystrokes leaves the ledger and the index flag unchanged. -/
theorem runClient_keys_calls_fuse (search : String → List SearchEntry) :
    ∀ (qs : List String) (s : ClientState),
      (runClient search s (qs.map ClientEv.key)).calls = s.calls ∧
        (runClient search s (qs.map ClientEv.key)).fuse = s.fuse
  | [], s => ⟨rfl, rfl⟩
  | q :: qs, s => by
      have h1 := clientStep_key_preserves search s q
      have h2 := runClient_keys_calls_fuse search qs (clientStep search s (.key q))
      simp only [runClient, List.map_cons, List.foldl_cons] at h2 ⊢
      exact ⟨h2.1.trans h1.1, h2.2.trans h1.2⟩

/-- After a burst of keystrokes ending in `q` (with the index present), the
only pending debounce timer is for `q` — or none at all when `q` is
whitespace-only: every earlier timer was cancelled. -/
theorem runClient_keys_pending (search : String → List SearchEntry)
    (init : List String) (q : String) (s : ClientState) (hf : s.fuse = true) :
    (runClient search s ((init ++ [q]).map ClientEv.key)).pending =
      (if jsTrim q = "" then none else some q) := by
  rw [List.map_append, runClient, List.foldl_append]
  have hf' : (runClient search s (init.map ClientEv.key)).fuse = true :=
    (runClient_keys_calls_fuse search init s).2.trans hf
  simp only [runClient] at hf'
  by_cases hq : jsTrim q = "" <;>
    simp [clientStep, hf', hq]

/-- C6 (amended): keystrokes within the debounce window followed by silence
execute exactly one search, with the final keystroke's query — provided the
index is loaded and the final query is not whitespace-only; a whitespace-only
final keystroke cancels the pending timer and executes nothing.  Superseded
queries are never executed in either case. -/
theorem c6_debounce_runs_final_query (search : String → List SearchEntry)
    (s : ClientState) (init : List String) (q : String) (hf : s.fuse = true) :
    (runClient search s
        ((init ++ [q]).map ClientEv.key ++ [ClientEv.fire])).calls =
      s.calls ++ (if jsTrim q = "" then [] else [q]) := by
  rw [runClient, List.foldl_append]
  have hp := runClient_keys_pending search init q s hf
  have hc := (runClient_keys_calls_fuse search (init ++ [q]) s).1
  simp only [runClient] at hp hc
  rw [List.foldl_cons, List.foldl_nil]
  set X := List.foldl (clientStep search) s (List.map ClientEv.key (init ++ [q])) with hX
  by_cases hq : jsTrim q = ""
  · rw [if_pos hq] at hp
    rw [if_pos hq]
    have hfire : clientStep search X ClientEv.fire = X := by
      simp [clientStep, hp]
    rw [hfire, hc, List.append_nil]
  · rw [if_neg hq] at hp
    rw [if_neg hq]
    have hfire : (clientStep search X ClientEv.fire).calls = X.calls ++ [q] := by
      simp [clientStep, hp]
    rw [hfire, hc]

/-- C6 (witness): three keystrokes "k", "ka", "kafka" then silence execute
exactly the one query "kafka". -/
theorem c6_witness :
    readyClient.fuse = true ∧
      (runClient (fun _ => []) readyClient
          ((["k", "ka"] ++ ["kafka"]).map ClientEv.key ++ [ClientEv.fire])).calls =
        readyClient.calls ++ (if jsTrim "kafka" = "" then [] else ["kafka"]) :=
  ⟨rfl, c6_debounce_runs_final_query (fun _ => []) readyClient ["k", "ka"] "kafka" rfl⟩

/-- C6 (counterexample): the keystrokes "a" then " " followed by silence
execute no query at all — not exactly one with the final keystroke's query:
the whitespace-only final keystroke cancels the pending timer for "a" and
schedules nothing. -/
theorem c6_counterexample :
    (runClient (fun _ => []) readyClient
        [ClientEv.key "a", ClientEv.key " ", ClientEv.fire]).calls = [] ∧
      ([] : List String) ≠ [" "] ∧ ([] : List String) ≠ ["a"] := by
  refine ⟨by decide, by decide, by decide⟩

/-- With no timer pending, any stretch of silence changes nothing. -/
theorem runClient_fires_noop (search : String → List SearchEntry) :
    ∀ (evs : List ClientEv) (s : ClientState), (∀ e ∈ evs, e = ClientEv.fire) →
      s.pending = none → runClient search s evs = s
  | [], _, _, _ => rfl
  | e :: evs, s, hevs, hp => by
      have he : e = ClientEv.fire := hevs e (List.mem_cons_self _ _)
      subst he
      have hstep : clientStep search s .fire = s := by simp [clientStep, hp]
      simp only [runClient, List.foldl_cons, hstep]
      exact runClient_fires_noop search evs s
        (fun e he => hevs e (List.mem_cons_of_mem _ he)) hp

/-- C7: an empty or whitespace-only query clears the results, schedules no
debounce timer, and never invokes the fuzzy index — the ledger of executed
searches is unchanged through any subsequent timer activity. -/
theorem c7_empty_query_no_search (search : String → List SearchEntry)
    (s : ClientState) (q : String) (hq : jsTrim q = "")
    (evs : List ClientEv) (hevs : ∀ e ∈ evs, e = ClientEv.fire) :
    (runClient search (clientStep search s (.key q)) evs).results = [] ∧
      (runClient search (clientStep search s (.key q)) evs).calls = s.calls ∧
      (runClient search (clientStep search s (.key q)) evs).pending = none := by
  have hstep : clientStep search s (.key q) =
      { s with pending := none, results := [] } := by
    simp [clientStep, hq]
  rw [hstep, runClient_fires_noop search evs _ hevs rfl]
  exact ⟨rfl, rfl, rfl⟩

/-- C7 (witness): the whitespace query "  " on a state with an executed
history and a pending timer yields no results, no new search, no timer. -/
theorem c7_witness :
    jsTrim "  " = "" ∧
      (runClient (fun _ => [])
          (clientStep (fun _ => [])
            { fuse := true, results := [], pending := some "old",
              loading := true, calls := ["prev"], fetchErrorLogged := false }
            (.key "  "))
          [ClientEv.fire]).results = [] ∧
      (runClient (fun _ => [])
          (clientStep (fun _ => [])
            { fuse := true, results := [], pending := some "old",
              loading := true, calls := ["prev"], fetchErrorLogged := false }
            (.key "  "))
          [ClientEv.fire]).calls = ["prev"] :=
  ⟨by decide,
   (c7_empty_query_no_search (fun _ => [])
      { fuse := true, results := [], pending := some "old", loading := true,
        calls := ["prev"], fetchErrorLogged := false }
      "  " (by decide) [ClientEv.fire] (by decide)).1,
   (c7_empty_query_no_search (fun _ => [])
      { fuse := true, results := [], pending := some "old", loading := true,
        calls := ["prev"], fetchErrorLogged := false }
      "  " (by decide) [ClientEv.fire] (by decide)).2.1⟩

/-- Without an index, every event that is not a successful fetch keeps the
client inert: no results, no pending timer, no executed searches. -/
theorem runClient_no_index (search : String → List SearchEntry) :
    ∀ (evs : List ClientEv) (s : ClientState),
      (∀ e ∈ evs, e ≠ ClientEv.fetchOk) →
      s.fuse = false → s.results = [] → s.pending = none →
      (runClient search s evs).fuse = false ∧
        (runClient search s evs).results = [] ∧
        (runClient search s evs).pending = none ∧
        (runClient search s evs).calls = s.calls
  | [], s, _, hf, hr, hp => ⟨hf, hr, hp, rfl⟩
  | e :: evs, s, hevs, hf, hr, hp => by
      have hrest : ∀ e ∈ evs, e ≠ ClientEv.fetchOk :=
        fun e he => hevs e (List.mem_cons_of_mem _ he)
      simp only [runClient, List.foldl_cons]
      cases e with
      | fetchOk => exact absurd rfl (hevs _ (List.mem_cons_self _ _))
      | fetchHttpError =>
          have hstep : clientStep search s .fetchHttpError = s := rfl
          rw [hstep]
          exact runClient_no_index search evs s hrest hf hr hp
      | fetchThrow =>
          have hstep : clientStep search s .fetchThrow =
              { s with fetchErrorLogged := true } := rfl
          rw [hstep]
          exact runClient_no_index search evs _ hrest hf hr hp
      | key q =>
          have hstep : clientStep search s (.key q) =
              { s with pending := none, results := [] } := by
            simp [clientStep, hf]
          rw [hstep]
          exact runClient_no_index search evs _ hrest hf rfl rfl
      | fire =>
          have hstep : clientStep search s .fire = s := by
            simp [clientStep, hp]
          rw [hstep]
          exact runClient_no_index search evs s hrest hf hr hp

/-- C9: when the index fetch fails — through the silent non-success-HTTP
path (`if (!res.ok) return`) or a rejected promise handled by the `.catch`
— the index stays unset and every subsequent keystroke or timer firing
yields an empty result set with the fuzzy index never invoked; the modelled
step function is total on both failure modes, so no exception propagates to
the interface. -/
theorem c9_fetch_failure_degrades (search : String → List SearchEntry)
    (failEv : ClientEv)
    (hfail : failEv = ClientEv.fetchHttpError ∨ failEv = ClientEv.fetchThrow)
    (evs : List ClientEv) (hevs : ∀ e ∈ evs, e ≠ ClientEv.fetchOk) :
    (runClient search initClient (failEv :: evs)).fuse = false ∧
      (runClient search initClient (failEv :: evs)).results = [] ∧
      (runClient search initClient (failEv :: evs)).calls = [] := by
  simp only [runClient, List.foldl_cons]
  rcases hfail with hfail | hfail
  · subst hfail
    have hstep : clientStep search initClient .fetchHttpError = initClient := rfl
    rw [hstep]
    have h := runClient_no_index search evs initClient hevs rfl rfl rfl
    simp only [runClient] at h
    exact ⟨h.1, h.2.1, h.2.2.2⟩
  · subst hfail
    have hstep : clientStep search initClient .fetchThrow =
        { initClient with fetchErrorLogged := true } := rfl
    rw [hstep]
    have h := runClient_no_index search evs
      { initClient with fetchErrorLogged := true } hevs rfl rfl rfl
    simp only [runClient] at h
    exact ⟨h.1, h.2.1, h.2.2.2⟩

/-- C9 (witness): after each failure mode — a non-success HTTP response and
a thrown fetch error — a query "kafka" and a timer firing produce no results
and no search executions. -/
theorem c9_witness :
    (∀ e ∈ [ClientEv.key "kafka", ClientEv.fire], e ≠ ClientEv.fetchOk) ∧
      (runClient (fun _ => []) initClient
          [ClientEv.fetchHttpError, ClientEv.key "kafka", ClientEv.fire]).results =
        [] ∧
      (runClient (fun _ => []) initClient
          [ClientEv.fetchHttpError, ClientEv.key "kafka", ClientEv.fire]).calls =
        [] ∧
      (runClient (fun _ => []) initClient
          [ClientEv.fetchThrow, ClientEv.key "kafka", ClientEv.fire]).results =
        [] ∧
      (runClient (fun _ => []) initClient
          [ClientEv.fetchThrow, ClientEv.key "kafka", ClientEv.fire]).calls = [] :=
  ⟨by decide,
   (c9_fetch_failure_degrades (fun _ => []) ClientEv.fetchHttpError (Or.inl rfl)
      [ClientEv.key "kafka", ClientEv.fire] (by decide)).2.1,
   (c9_fetch_failure_degrades (fun _ => []) ClientEv.fetchHttpError (Or.inl rfl)
      [ClientEv.key "kafka", ClientEv.fire] (by decide)).2.2,
   (c9_fetch_failure_degrades (fun _ => []) ClientEv.fetchThrow (Or.inr rfl)
      [ClientEv.key "kafka", ClientEv.fire] (by decide)).2.1,
   (c9_fetch_failure_degrades (fun _ => []) ClientEv.fetchThrow (Or.inr rfl)
      [ClientEv.key "kafka", ClientEv.fire] (by decide)).2.2⟩

/-! ### Claim C8 -/

/-- If any file in the list fails to read or parse, the builder's loop
rejects. -/
theorem buildDocsLoop_error (fs : FS) :
    ∀ (files : List String) (f : String), f ∈ files →
      (∃ e, fileStep fs f = Except.error e) →
      ∃ e, buildDocsLoop fs files = Except.error e
  | [], f, hf, _ => absurd hf (List.not_mem_nil f)
  | g :: rest, f, hf, hbad => by
      cases hg : fileStep fs g with
      | error e => exact ⟨e, by simp [buildDocsLoop, hg]⟩
      | ok d =>
          have hfr : f ∈ rest := by
            rcases List.mem_cons.mp hf with h | h
            · subst h
              obtain ⟨e, he⟩ := hbad
              rw [he] at hg
              cases hg
            · exact h
          obtain ⟨e, he⟩ := buildDocsLoop_error fs rest f hfr hbad
          exact ⟨e, by simp [buildDocsLoop, hg, he]⟩

/-- C8: any failure of the directory read, a file read, or a parse aborts
the whole build with exit code 1 and a logged cause, and no artifact write
occurs — there is no partial output. -/
theorem c8_failure_aborts_without_write (fs : FS)
    (h : (∃ e, fs.dirEntries = Except.error e) ∨
         (∃ entries, fs.dirEntries = Except.ok entries ∧
            ∃ f, f ∈ mdFilter entries ∧ ∃ e, fileStep fs f = Except.error e)) :
    buildIndexRun fs = ([BuildEff.logError], 1) ∧
      ∀ docs, BuildEff.writeIndex docs ∉ (buildIndexRun fs).1 := by
  have hrun : buildIndexRun fs = ([BuildEff.logError], 1) := by
    rcases h with ⟨e, he⟩ | ⟨entries, hentries, f, hf, hbad⟩
    · simp [buildIndexRun, he]
    · obtain ⟨e, he⟩ := buildDocsLoop_error fs (mdFilter entries) f hf hbad
      simp [buildIndexRun, hentries, he]
  refine ⟨hrun, ?_⟩
  rw [hrun]
  intro docs hmem
  simp at hmem

/-- C8 (witness): an unreadable content directory aborts the build with exit
code 1, a logged cause and no write. -/
theorem c8_witness :
    buildIndexRun
        ⟨Except.error "EACCES: permission denied",
         fun _ => Except.error "unused", fun _ => Except.error "unused"⟩ =
      ([BuildEff.logError], 1) ∧
      ∀ docs, BuildEff.writeIndex docs ∉
        (buildIndexRun
          ⟨Except.error "EACCES: permission denied",
           fun _ => Except.error "unused", fun _ => Except.error "unused"⟩).1 :=
  c8_failure_aborts_without_write _ (Or.inl ⟨"EACCES: permission denied", rfl⟩)

/-! ### Claim C10 -/

/-- A file whose front matter lacks a truthy string `title` or a numeric
`order` makes the validation of `getAllDocsMeta` throw. -/
theorem metaStep_error_of_bad (fs : FS) (f raw : String) (fm : FrontMatter)
    (tree : List Node)
    (hr : fs.readFile f = Except.ok raw)
    (hp : fs.parseMatter raw = Except.ok (fm, tree))
    (hbad : titleInvalid fm.title = true ∨ orderInvalid fm.order = true) :
    ∃ e, metaStep fs f = Except.error e := by
  simp only [metaStep, hr, hp]
  match ht : fm.title with
  | none | some (.num _) | some (.bool _) | some (.arr _) | some .null =>
      exact ⟨_, rfl⟩
  | some (.str t) =>
      by_cases hte : t = ""
      · simp [hte]
      · have horder : orderInvalid fm.order = true := by
          rcases hbad with hbad | hbad
          · rw [ht] at hbad
            simp [titleInvalid, hte] at hbad
          · exact hbad
        simp only [hte, if_false]
        match ho : fm.order with
        | none | some (.str _) | some (.bool _) | some (.arr _) | some .null =>
            exact ⟨_, rfl⟩
        | some (.num n) =>
            rw [ho] at horder
            simp [orderInvalid] at horder

/-- If any file in the list makes the validation throw, the whole
`getAllDocsMeta` loop rejects. -/
theorem metaLoop_error (fs : FS) :
    ∀ (files : List String) (f : String), f ∈ files →
      (∃ e, metaStep fs f = Except.error e) →
      ∃ e, metaLoop fs files = Except.error e
  | [], f, hf, _ => absurd hf (List.not_mem_nil f)
  | g :: rest, f, hf, hbad => by
      cases hg : metaStep fs g with
      | error e => exact ⟨e, by simp [metaLoop, hg]⟩
      | ok m =>
          have hfr : f ∈ rest := by
            rcases List.mem_cons.mp hf with h | h
            · subst h
              obtain ⟨e, he⟩ := hbad
              rw [he] at hg
              cases hg
            · exact h
          obtain ⟨e, he⟩ := metaLoop_error fs rest f hfr hbad
          exact ⟨e, by simp [metaLoop, hg, he]⟩

/-- When every file reads and parses, the builder's loop succeeds and keeps
every file's record. -/
theorem buildDocsLoop_ok (fs : FS) :
    ∀ (files : List String),
      (∀ g ∈ files, ∃ d, fileStep fs g = Except.ok d) →
      ∃ docs, buildDocsLoop fs files = Except.ok docs ∧
        ∀ g ∈ files, ∀ d, fileStep fs g = Except.ok d → d ∈ docs
  | [], _ => ⟨[], rfl, by simp⟩
  | g :: rest, h => by
      obtain ⟨d, hd⟩ := h g (List.mem_cons_self _ _)
      obtain ⟨docs, hdocs, hmem⟩ :=
        buildDocsLoop_ok fs rest (fun g' hg' => h g' (List.mem_cons_of_mem _ hg'))
      refine ⟨d :: docs, by simp [buildDocsLoop, hd, hdocs], ?_⟩
      intro g' hg' d' hd'
      rcases List.mem_cons.mp hg' with h' | h'
      · subst h'
        rw [hd] at hd'
        cases hd'
        exact List.mem_cons_self _ _
      · exact List.mem_cons_of_mem _ (hmem g' h' d' hd')

/-- If the inserted record has a string title, or ties in `order` with
nothing it is compared against, the insertion succeeds and permutes. -/
theorem orderedInsertE_ok (a : RawDoc) :
    ∀ l : List RawDoc,
      (∀ b ∈ l, a.order = b.order → a.title.isStr = true) →
      ∃ l', orderedInsertE a l = Except.ok l' ∧ l'.Perm (a :: l)
  | [], _ => ⟨[a], rfl, List.Perm.refl _⟩
  | b :: l, h => by
      have hcmp : ∃ c, rawCmpE a b = Except.ok c := by
        simp only [rawCmpE]
        by_cases hd : a.order - b.order ≠ 0
        · exact ⟨a.order - b.order, by simp [hd]⟩
        · have htie : a.order = b.order := by omega
          have hstr := h b (List.mem_cons_self _ _) htie
          match ht : a.title with
          | .str x => exact ⟨localeCompare x (jvalToString b.title), by simp [hd, ht]⟩
          | .num _ | .bool _ | .arr _ | .null =>
              rw [ht] at hstr
              simp [JVal.isStr] at hstr
      obtain ⟨c, hc⟩ := hcmp
      by_cases hle : c ≤ 0
      · exact ⟨a :: b :: l, by simp [orderedInsertE, hc, hle], List.Perm.refl _⟩
      · obtain ⟨l', hl', hperm⟩ :=
          orderedInsertE_ok a l (fun b' hb' => h b' (List.mem_cons_of_mem _ hb'))
        refine ⟨b :: l', by simp [orderedInsertE, hc, hle, hl'], ?_⟩
        exact (hperm.cons b).trans (List.Perm.swap a b l)

/-- When any two records that tie on `order` both carry string titles, no
comparator call can throw, so the sort succeeds with a permutation of its
input — and every real `Array.prototype.sort` behaves the same way, since
calls on distinct orders short-circuit before touching the titles. -/
theorem sortRawE_ok :
    ∀ docs : List RawDoc,
      docs.Pairwise
        (fun d1 d2 => d1.order = d2.order →
          d1.title.isStr = true ∧ d2.title.isStr = true) →
      ∃ sorted, sortRawE docs = Except.ok sorted ∧ sorted.Perm docs
  | [], _ => ⟨[], rfl, List.Perm.refl _⟩
  | a :: l, h => by
      rcases List.pairwise_cons.mp h with ⟨ha, hl⟩
      obtain ⟨sorted, hsorted, hperm⟩ := sortRawE_ok l hl
      obtain ⟨l', hl', hperm'⟩ := orderedInsertE_ok a sorted
        (fun b hb htie => (ha b (hperm.mem_iff.mp hb) htie).1)
      refine ⟨l', by simp [sortRawE, hsorted, hl'], ?_⟩
      exact hperm'.trans (hperm.cons a)

/-- C10 (amended): whenever the content directory holds a file whose front
matter lacks a truthy string `title` or a numeric `order`, `getAllDocsMeta`
(and hence `getAllDocSlugs` and every listing built on them) rejects; yet if
every file still reads and parses, and no two indexed records that tie on
`order` involve a non-string title — otherwise the sort comparator itself
evaluates `localeCompare` on a non-string receiver, throws a `TypeError`,
and the build aborts instead — the Index Builder succeeds and writes an
artifact containing that same file's record, built with `title ?? slug`,
which substitutes the slug only for an absent or null title and carries a
present non-string title through unchanged, and with order 999 for a
non-numeric `order`. -/
theorem c10_bad_front_matter_divergence (fs : FS) (entries : List String)
    (f raw : String) (fm : FrontMatter) (tree : List Node)
    (hdir : fs.dirEntries = Except.ok entries)
    (hf : f ∈ mdFilter entries)
    (hread : fs.readFile f = Except.ok raw)
    (hparse : fs.parseMatter raw = Except.ok (fm, tree))
    (hbad : titleInvalid fm.title = true ∨ orderInvalid fm.order = true) :
    (∃ e, getAllDocsMeta fs = Except.error e) ∧
      (∃ e, getAllDocSlugs fs = Except.error e) ∧
      ((∀ g ∈ mdFilter entries, ∃ d, fileStep fs g = Except.ok d) →
        (∀ docs, buildDocsLoop fs (mdFilter entries) = Except.ok docs →
            docs.Pairwise
              (fun d1 d2 => d1.order = d2.order →
                d1.title.isStr = true ∧ d2.title.isStr = true)) →
        ∃ docs, buildIndexRun fs = ([BuildEff.mkdirOut, BuildEff.writeIndex docs], 0) ∧
          mkRawDoc f fm tree ∈ docs ∧
          (mkRawDoc f fm tree).title = nullishGetD fm.title (JVal.str (slugOf f)) ∧
          (mkRawDoc f fm tree).order =
            (match fm.order with | some (.num n) => n | _ => 999)) := by
  have hmetaerr : ∃ e, getAllDocsMeta fs = Except.error e := by
    obtain ⟨e, he⟩ := metaLoop_error fs (mdFilter entries) f hf
      (metaStep_error_of_bad fs f raw fm tree hread hparse hbad)
    exact ⟨e, by simp [getAllDocsMeta, hdir, he]⟩
  obtain ⟨e, he⟩ := hmetaerr
  refine ⟨⟨e, he⟩, ⟨e, by simp [getAllDocSlugs, he]⟩, ?_⟩
  intro hok hsafe
  obtain ⟨docs, hdocs, hmem⟩ := buildDocsLoop_ok fs (mdFilter entries) hok
  obtain ⟨sorted, hsorted, hperm⟩ := sortRawE_ok docs (hsafe docs hdocs)
  have hfstep : fileStep fs f = Except.ok (mkRawDoc f fm tree) := by
    simp [fileStep, hread, hparse]
  refine ⟨sorted, by simp [buildIndexRun, hdir, hdocs, hsorted], ?_, rfl, rfl⟩
  exact hperm.mem_iff.mpr (hmem f hf (mkRawDoc f fm tree) hfstep)

/-- C10 (witness): the theorem applied to a directory of two files, both
with string titles and without `order` — so both records default to order
999 and tie: the listing rejects on the first file while the tie-safe build
half applies. -/
theorem c10_witness :
    (∃ e, getAllDocsMeta
        ⟨Except.ok ["guide.md", "other.md"], fun f => Except.ok f,
         fun raw =>
           if raw = "guide.md" then
             Except.ok (⟨some (JVal.str "Guide"), none, none, none⟩, [])
           else Except.ok (⟨some (JVal.str "Other"), none, none, none⟩, [])⟩ = Except.error e) ∧
      (∃ e, getAllDocSlugs
          ⟨Except.ok ["guide.md", "other.md"], fun f => Except.ok f,
         fun raw =>
           if raw = "guide.md" then
             Except.ok (⟨some (JVal.str "Guide"), none, none, none⟩, [])
           else Except.ok (⟨some (JVal.str "Other"), none, none, none⟩, [])⟩ = Except.error e) ∧
      ((∀ g ∈ mdFilter ["guide.md", "other.md"], ∃ d,
          fileStep
            ⟨Except.ok ["guide.md", "other.md"], fun f => Except.ok f,
         fun raw =>
           if raw = "guide.md" then
             Except.ok (⟨some (JVal.str "Guide"), none, none, none⟩, [])
           else Except.ok (⟨some (JVal.str "Other"), none, none, none⟩, [])⟩ g = Except.ok d) →
        (∀ docs,
            buildDocsLoop
              ⟨Except.ok ["guide.md", "other.md"], fun f => Except.ok f,
         fun raw =>
           if raw = "guide.md" then
             Except.ok (⟨some (JVal.str "Guide"), none, none, none⟩, [])
           else Except.ok (⟨some (JVal.str "Other"), none, none, none⟩, [])⟩
              (mdFilter ["guide.md", "other.md"]) = Except.ok docs →
            docs.Pairwise
              (fun d1 d2 => d1.order = d2.order →
                d1.title.isStr = true ∧ d2.title.isStr = true)) →
        ∃ docs,
          buildIndexRun
              ⟨Except.ok ["guide.md", "other.md"], fun f => Except.ok f,
         fun raw =>
           if raw = "guide.md" then
             Except.ok (⟨some (JVal.str "Guide"), none, none, none⟩, [])
           else Except.ok (⟨some (JVal.str "Other"), none, none, none⟩, [])⟩ =
            ([BuildEff.mkdirOut, BuildEff.writeIndex docs], 0) ∧
          mkRawDoc "guide.md" ⟨some (JVal.str "Guide"), none, none, none⟩ [] ∈
            docs ∧
          (mkRawDoc "guide.md"
              ⟨some (JVal.str "Guide"), none, none, none⟩ []).title =
            nullishGetD (some (JVal.str "Guide"))
              (JVal.str (slugOf "guide.md")) ∧
          (mkRawDoc "guide.md"
              ⟨some (JVal.str "Guide"), none, none, none⟩ []).order = 999) :=
  c10_bad_front_matter_divergence
    ⟨Except.ok ["guide.md", "other.md"], fun f => Except.ok f,
         fun raw =>
           if raw = "guide.md" then
             Except.ok (⟨some (JVal.str "Guide"), none, none, none⟩, [])
           else Except.ok (⟨some (JVal.str "Other"), none, none, none⟩, [])⟩
    ["guide.md", "other.md"] "guide.md" "guide.md"
    ⟨some (JVal.str "Guide"), none, none, none⟩ []
    rfl (by decide) rfl rfl (Or.inr rfl)

/-- C10 (counterexample): with front matter `title: 5` (a number) and no
`order`, the listing rejects and the builder does index the file — but with
the number 5 carried through as the title, not with the slug "guide" the
claim's fallback description predicts. -/
theorem c10_counterexample :
    (∃ e, getAllDocsMeta
        ⟨Except.ok ["guide.md"], fun _ => Except.ok "raw",
         fun _ => Except.ok (⟨some (JVal.num 5), none, none, none⟩, [])⟩ =
      Except.error e) ∧
      buildIndexRun
          ⟨Except.ok ["guide.md"], fun _ => Except.ok "raw",
           fun _ => Except.ok (⟨some (JVal.num 5), none, none, none⟩, [])⟩ =
        ([BuildEff.mkdirOut,
          BuildEff.writeIndex
            [{ slug := "guide", title := JVal.num 5, summary := JVal.str "",
               tags := [], order := 999, body := "", questions := [],
               sections := [] }]], 0) ∧
      JVal.num 5 ≠ JVal.str "guide" := by
  refine ⟨⟨"Missing required frontmatter title in guide.md", by rfl⟩, by rfl, by decide⟩

/-! ### Claim C1 -/

/-- On purely textual inline content, `toString` and the text-node visit
agree. -/
theorem inlinesToString_of_allText :
    ∀ ins : List Inline, inlinesAllText ins = true →
      inlinesToString ins = inlineTextValues ins
  | [], _ => rfl
  | .text v :: is, h => by
      simp only [inlinesAllText] at h
      simp only [inlinesToString, inlineTextValues,
        inlinesToString_of_allText is h]
  | .code v :: is, h => by simp [inlinesAllText] at h

mutual
/-- A node with no headings below it contributes nothing to
`extractHeadings` and leaves the slugger untouched. -/
theorem ehVisitNode_of_headingFree :
    ∀ (n : Node) (sl : Slugger), nodeHeadingFree n = true →
      ehVisitNode n sl = ([], sl)
  | .heading _ _, _, h => by simp [nodeHeadingFree] at h
  | .paragraph _, _, _ => rfl
  | .container cs, sl, h => by
      simp only [nodeHeadingFree] at h
      simp only [ehVisitNode]
      exact extractHeadingsAux_of_headingFree cs sl h
  | .leaf, _, _ => rfl
/-- A heading-free node list contributes nothing to `extractHeadings`. -/
theorem extractHeadingsAux_of_headingFree :
    ∀ (l : List Node) (sl : Slugger), nodesHeadingFree l = true →
      extractHeadingsAux l sl = ([], sl)
  | [], _, _ => rfl
  | n :: rest, sl, h => by
      simp only [nodesHeadingFree, Bool.and_eq_true] at h
      simp [extractHeadingsAux,
        ehVisitNode_of_headingFree n sl h.1,
        extractHeadingsAux_of_headingFree rest sl h.2]
end

/-- Under the C1 hypotheses, `extractSections` and `extractHeadings` process
exactly the same headings with the same slugger inputs from any common
slugger state, so ids, titles and depths agree pointwise. -/
theorem c1Aux :
    ∀ (l : List Node) (sl : Slugger), (∀ n ∈ l, c1Node n = true) →
      (extractSectionsAux l sl).map (fun s => (s.id, s.title, s.depth)) =
        (extractHeadingsAux l sl).1.map (fun hd => (hd.id, hd.text, hd.depth))
  | [], _, _ => rfl
  | .heading depth ins :: rest, sl, h => by
      have hn := h _ (List.mem_cons_self _ _)
      simp only [c1Node, Bool.and_eq_true, decide_eq_true_eq] at hn
      obtain ⟨⟨⟨h2, h3⟩, hall⟩, htrim⟩ := hn
      have hrest : ∀ n ∈ rest, c1Node n = true :=
        fun n hn => h n (List.mem_cons_of_mem _ hn)
      have hts : inlinesToString ins = inlineTextValues ins :=
        inlinesToString_of_allText ins hall
      have h4 : depth ≤ 4 := le_trans h3 (by omega)
      have h23 : 2 ≤ depth ∧ depth ≤ 3 := ⟨h2, h3⟩
      by_cases hempty : inlineTextValues ins = ""
      · have e1 : jsTrim (inlinesToString ins) = "" := by
          rw [hts, htrim, hempty]
        have e2 : jsTrim (inlineTextValues ins) = "" := by rw [htrim, hempty]
        simp only [extractSectionsAux, h4, if_true, e1, if_pos rfl,
          extractHeadingsAux, ehVisitNode, h23, e2]
        exact c1Aux rest sl hrest
      · have e1 : jsTrim (inlinesToString ins) = inlineTextValues ins := by
          rw [hts, htrim]
        have e2 : ¬ jsTrim (inlineTextValues ins) = "" := by
          rw [htrim]; exact hempty
        rcases hsl : Slugger.slug sl (inlineTextValues ins) with ⟨id, sl'⟩
        simp only [extractSectionsAux, h4, if_true, e1, hempty, if_false,
          extractHeadingsAux, ehVisitNode, h23, e2, hsl, List.map_cons]
        rw [c1Aux rest sl' hrest]
        rcases hrest' : extractHeadingsAux rest sl' with ⟨hs, sl''⟩
        simp [hrest']
  | .paragraph q :: rest, sl, h => by
      simp only [extractSectionsAux, extractHeadingsAux, ehVisitNode]
      have := c1Aux rest sl (fun n hn => h n (List.mem_cons_of_mem _ hn))
      rcases hrest' : extractHeadingsAux rest sl with ⟨hs, sl''⟩
      rw [hrest'] at this
      simpa using this
  | .container cs :: rest, sl, h => by
      have hfree : nodesHeadingFree cs = true := h _ (List.mem_cons_self _ _)
      simp only [extractSectionsAux, extractHeadingsAux,
        ehVisitNode_of_headingFree (Node.container cs) sl hfree]
      have := c1Aux rest sl (fun n hn => h n (List.mem_cons_of_mem _ hn))
      rcases hrest' : extractHeadingsAux rest sl with ⟨hs, sl''⟩
      rw [hrest'] at this
      simpa using this
  | .leaf :: rest, sl, h => by
      simp only [extractSectionsAux, extractHeadingsAux, ehVisitNode]
      have := c1Aux rest sl (fun n hn => h n (List.mem_cons_of_mem _ hn))
      rcases hrest' : extractHeadingsAux rest sl with ⟨hs, sl''⟩
      rw [hrest'] at this
      simpa using this

/-- C1 (amended): the Index Builder's `extractSections` and the renderer's
`extractHeadings` produce the same ids (and texts and depths) for documents
whose headings are all top-level, of depth 2-3, with purely textual,
already-trimmed content.  Outside this class the two sluggers can receive
different input sequences and the ids diverge. -/
theorem c1_heading_ids_agree (children : List Node)
    (h : ∀ n ∈ children, c1Node n = true) :
    (extractSections children).map (fun s => (s.id, s.title, s.depth)) =
      (extractHeadings children).map (fun hd => (hd.id, hd.text, hd.depth)) :=
  c1Aux children Slugger.new h

/-- C1 (witness): two depth-2/3 headings with the same text "Intro" get the
de-duplicated ids "intro" and "intro-1" from both extractors. -/
theorem c1_witness :
    (∀ n ∈ [Node.heading 2 [Inline.text "Intro"],
            Node.heading 3 [Inline.text "Intro"]], c1Node n = true) ∧
      (extractSections [Node.heading 2 [Inline.text "Intro"],
          Node.heading 3 [Inline.text "Intro"]]).map
          (fun s => (s.id, s.title, s.depth)) =
        (extractHeadings [Node.heading 2 [Inline.text "Intro"],
            Node.heading 3 [Inline.text "Intro"]]).map
          (fun hd => (hd.id, hd.text, hd.depth)) :=
  ⟨by decide, c1_heading_ids_agree _ (by decide)⟩

/-- C1 (counterexample): a depth-1 heading "Overview" followed by a depth-2
heading "Overview".  Both process the depth-2 heading (depth 2-3, non-empty
text), but `extractSections` — whose slugger has already consumed the
depth-1 heading — gives it the id "overview-1", while `extractHeadings` —
which skips depth-1 headings entirely — gives it "overview".  The search
anchor and the rendered id disagree. -/
theorem c1_counterexample :
    (extractSections [Node.heading 1 [Inline.text "Overview"],
        Node.heading 2 [Inline.text "Overview"]])[1]? =
      some ⟨"overview-1", "Overview", 2, ""⟩ ∧
      (extractHeadings [Node.heading 1 [Inline.text "Overview"],
          Node.heading 2 [Inline.text "Overview"]])[0]? =
        some ⟨"overview", "Overview", 2⟩ ∧
      ("overview-1" : String) ≠ "overview" := by
  refine ⟨by decide, by decide, by decide⟩
